import Mathlib

/-
Verification of the OpenSPH numerical core against its design specification.

The development shallowly embeds the relevant C++ functions over exact
arithmetic (ℚ where the code is pure comparisons and field operations,
ℝ where a square root is involved).  Machine floats are modelled as exact
field elements; every definition mirrors one source function and is named
after it.
-/

namespace OpenSPH

/-- 4-lane vector from `Vector.h` (via spec §4.1): three spatial components
plus the smoothing length carried in the fourth lane.  Lane-wise arithmetic
acts on all four lanes (SIMD semantics); geometric operations (dot product,
squared length) ignore the fourth lane. -/
structure Vec4 (K : Type) where
  x : K
  y : K
  z : K
  h : K

variable {K : Type} [Field K]

/-- Lane-wise addition of two 4-lane vectors. -/
def Vec4.add (a b : Vec4 K) : Vec4 K :=
  ⟨a.x + b.x, a.y + b.y, a.z + b.z, a.h + b.h⟩

/-- Lane-wise subtraction of two 4-lane vectors. -/
def Vec4.sub (a b : Vec4 K) : Vec4 K :=
  ⟨a.x - b.x, a.y - b.y, a.z - b.z, a.h - b.h⟩

/-- Multiplication of a 4-lane vector by a scalar (all four lanes). -/
def Vec4.smul (c : K) (a : Vec4 K) : Vec4 K :=
  ⟨c * a.x, c * a.y, c * a.z, c * a.h⟩

instance instVec4Add : Add (Vec4 K) := ⟨Vec4.add⟩

instance instVec4Sub : Sub (Vec4 K) := ⟨Vec4.sub⟩

instance instVec4SMul : SMul K (Vec4 K) := ⟨Vec4.smul⟩

/-- `dot` from `Vector.h`: dot product over the three spatial lanes only. -/
def Vec4.dot (a b : Vec4 K) : K :=
  a.x * b.x + a.y * b.y + a.z * b.z

/-- `getSqrLength` from `Vector.h`: squared length over the spatial lanes. -/
def Vec4.sqrLength (a : Vec4 K) : K :=
  a.dot a

/-- `SymmetricTensor` (SymmetricTensor.h): symmetric 3×3 tensor stored as a
diagonal vector `(d0,d1,d2)` and an off-diagonal vector `(o0,o1,o2)` holding
the xy, xz, yz entries.  Components are modelled as exact rationals. -/
@[ext]
structure SymmetricTensor where
  d0 : ℚ
  d1 : ℚ
  d2 : ℚ
  o0 : ℚ
  o1 : ℚ
  o2 : ℚ

/-- `SymmetricTensor::trace`: sum of the diagonal. -/
def SymmetricTensor.trace (t : SymmetricTensor) : ℚ :=
  t.d0 + t.d1 + t.d2

/-- `SymmetricTensor::determinant`, exactly as written in the source:
`diag[0]*diag[1]*diag[2] + 2*off[0]*off[1]*off[2]
 - dot(sqr(off), (diag[2], diag[1], diag[0]))`. -/
def SymmetricTensor.determinant (t : SymmetricTensor) : ℚ :=
  t.d0 * t.d1 * t.d2 + 2 * t.o0 * t.o1 * t.o2 -
    (t.o0 ^ 2 * t.d2 + t.o1 ^ 2 * t.d1 + t.o2 ^ 2 * t.d0)

/-- `SymmetricTensor::invariant<n>`: the three cases of the template switch;
the unreachable default (`STOP`) is modelled as 0. -/
def SymmetricTensor.invariant (t : SymmetricTensor) : ℕ → ℚ
  | 1 => t.trace
  | 2 => (t.o0 ^ 2 + t.o1 ^ 2 + t.o2 ^ 2) - (t.d1 * t.d2 + t.d2 * t.d0 + t.d0 * t.d1)
  | 3 => t.determinant
  | _ => 0

/-- The identity tensor `SymmetricTensor::identity()`. -/
def SymmetricTensor.identity : SymmetricTensor :=
  ⟨1, 1, 1, 0, 0, 0⟩

/-- Component-wise difference of symmetric tensors (`operator-`). -/
def SymmetricTensor.sub (s t : SymmetricTensor) : SymmetricTensor :=
  ⟨s.d0 - t.d0, s.d1 - t.d1, s.d2 - t.d2, s.o0 - t.o0, s.o1 - t.o1, s.o2 - t.o2⟩

/-- Multiplication of a symmetric tensor by a scalar (`operator*`). -/
def SymmetricTensor.smul (c : ℚ) (t : SymmetricTensor) : SymmetricTensor :=
  ⟨c * t.d0, c * t.d1, c * t.d2, c * t.o0, c * t.o1, c * t.o2⟩

/-- Stated from the spec sentence for claim C4 only (refinement reference):
the sum of the three principal 2×2 minors
`(t00·t11 − t01²) + (t11·t22 − t12²) + (t00·t22 − t02²)`. -/
def specMinorSum (t : SymmetricTensor) : ℚ :=
  (t.d0 * t.d1 - t.o0 ^ 2) + (t.d1 * t.d2 - t.o2 ^ 2) + (t.d0 * t.d2 - t.o1 ^ 2)

/-- Textbook cofactor expansion of the determinant of the symmetric matrix
`[[d0,o0,o1],[o0,d1,o2],[o1,o2,d2]]`, used as the independent reference for
the determinant clause of claim C4. -/
def specDet3 (t : SymmetricTensor) : ℚ :=
  t.d0 * (t.d1 * t.d2 - t.o2 ^ 2) - t.o0 * (t.o0 * t.d2 - t.o2 * t.o1) +
    t.o1 * (t.o0 * t.o2 - t.d1 * t.o1)

/-- Modelled from the spec: the numeric primitive `Interval` (spec §2 C1);
its source header is not under src/.  An interval is a lower and upper
bound. -/
structure Interval where
  lo : ℚ
  hi : ℚ

/-- Modelled from the spec: clamping a scalar to an interval (the standard
`max(lo, min(x, hi))`); the scalar clamp helper is not under src/. -/
def clampScalar (x : ℚ) (iv : Interval) : ℚ :=
  max iv.lo (min x iv.hi)

/-- `clamp<SymmetricTensor>` (SymmetricTensor.h): component-wise clamp of
the diagonal and off-diagonal vectors. -/
def SymmetricTensor.clampComponents (t : SymmetricTensor) (iv : Interval) : SymmetricTensor :=
  ⟨clampScalar t.d0 iv, clampScalar t.d1 iv, clampScalar t.d2 iv,
    clampScalar t.o0 iv, clampScalar t.o1 iv, clampScalar t.o2 iv⟩

/-- `TracelessTensor` (TracelessTensor.h): five stored components
`m = (M00, M11, M01, M02)` and `m12`; the z,z entry is recovered as
`−M00 − M11`. -/
structure TracelessTensor where
  m0 : ℚ
  m1 : ℚ
  m2 : ℚ
  m3 : ℚ
  m12 : ℚ

/-- `TracelessTensor::operator SymmetricTensor()`: reconstruction of the
full symmetric tensor, with zz = −m0 − m1. -/
def TracelessTensor.toSymmetric (t : TracelessTensor) : SymmetricTensor :=
  ⟨t.m0, t.m1, -t.m0 - t.m1, t.m2, t.m3, t.m12⟩

/-- `TracelessTensor(const SymmetricTensor&)`: stores the first two diagonal
entries and the off-diagonal entries, discarding zz (the source asserts the
input is traceless). -/
def TracelessTensor.ofSymmetric (s : SymmetricTensor) : TracelessTensor :=
  ⟨s.d0, s.d1, s.o0, s.o1, s.o2⟩

/-- `clamp<TracelessTensor>` (TracelessTensor.h): clamp the components, then
subtract `identity * trace / 3` of the clamped tensor and re-pack as a
traceless tensor. -/
def TracelessTensor.clampT (t : TracelessTensor) (iv : Interval) : TracelessTensor :=
  TracelessTensor.ofSymmetric
    ((t.toSymmetric.clampComponents iv).sub
      (SymmetricTensor.smul ((t.toSymmetric.clampComponents iv).trace / 3)
        SymmetricTensor.identity))

/-- `minElement<TracelessTensor>` (TracelessTensor.h): minimum of the four
stored vector lanes, `m12`, and the reconstructed zz entry `−m0 − m1`. -/
def TracelessTensor.minElement (t : TracelessTensor) : ℚ :=
  min (min (min t.m0 t.m1) (min t.m2 t.m3)) (min t.m12 (-t.m0 - t.m1))

/-- `maxElement<TracelessTensor>` (TracelessTensor.h): maximum of the four
stored vector lanes, `m12`, and the reconstructed zz entry `−m0 − m1`. -/
def TracelessTensor.maxElement (t : TracelessTensor) : ℚ :=
  max (max (max t.m0 t.m1) (max t.m2 t.m3)) (max t.m12 (-t.m0 - t.m1))

/-- Per-particle input arrays of `StandardAV::StandardAVDerivative`
(Standard.h): positions (with h in the fourth lane), velocities, densities,
sound speeds and masses, modelled as functions of the particle index. -/
structure AVState where
  r : ℕ → Vec4 ℚ
  v : ℕ → Vec4 ℚ
  rho : ℕ → ℚ
  cs : ℕ → ℚ
  m : ℕ → ℚ

/-- The constant `eps = 1.e-2` member of `StandardAVDerivative`. -/
def avEps : ℚ := 1 / 100

/-- `StandardAV::StandardAVDerivative::compute` (Standard.h): loop over the
neighbour list (index–gradient pairs), skipping non-converging pairs
(`dvdr >= 0`) and otherwise accumulating `m[j]*Pi` into `dv[i]` and
`-m[i]*Pi` into `dv[j]`, where
`Pi = 1/rhobar * (-alpha*csbar*mu + beta*mu^2) * grad` and
`mu = hbar*dvdr / (|r_i-r_j|^2 + eps*hbar^2)`. -/
def avCompute (alpha beta : ℚ) (st : AVState) (i : ℕ) :
    List (ℕ × Vec4 ℚ) → (ℕ → Vec4 ℚ) → (ℕ → Vec4 ℚ)
  | [], dv => dv
  | (j, grad) :: rest, dv =>
    let dvdr : ℚ := (st.v i - st.v j).dot (st.r i - st.r j)
    if 0 ≤ dvdr then
      avCompute alpha beta st i rest dv
    else
      let hbar : ℚ := (1 / 2) * ((st.r i).h + (st.r j).h)
      let rhobar : ℚ := (1 / 2) * (st.rho i + st.rho j)
      let csbar : ℚ := (1 / 2) * (st.cs i + st.cs j)
      let mu : ℚ := hbar * dvdr / ((st.r i - st.r j).sqrLength + avEps * hbar ^ 2)
      let p : Vec4 ℚ := (1 / rhobar * (-(alpha * csbar * mu) + beta * mu ^ 2)) • grad
      let dv1 := Function.update dv i (dv i + st.m j • p)
      let dv2 := Function.update dv1 j (dv1 j - st.m i • p)
      avCompute alpha beta st i rest dv2

/-- `Ghost` (Boundary.h / Domain.h): a ghost position together with the
index of the particle it mirrors. -/
structure Ghost where
  position : Vec4 ℚ
  index : ℕ

/-- Storage state relevant to the boundary conditions: the position rows of
the particle store (the stores used by the boundary claims carry only the
position quantity) together with the `ghosts` and `ghostIdxs` members of
the boundary-condition object. -/
structure BoundaryState where
  pos : List (Vec4 ℚ)
  ghosts : List Ghost
  ghostIdxs : List ℕ

/-- Modelled from the spec: `Storage::duplicate(idxs)` appends copies of the
selected rows and returns the indices of the appended rows (spec §4.3;
Storage.cpp is not under src/).  Specialised to the position quantity. -/
def storageDuplicate (pos : List (Vec4 ℚ)) (idxs : List ℕ) :
    List (Vec4 ℚ) × List ℕ :=
  (pos ++ idxs.map (fun i => pos.getD i ⟨0, 0, 0, 0⟩),
    List.range idxs.length |>.map (fun k => pos.length + k))

/-- Write `r[ghostIdxs[k]] := ghosts[k].position` for every k, as done at
the end of both `GhostParticles::initialize` and
`SymmetricBoundary::initialize`. -/
def setGhostPositions (pos : List (Vec4 ℚ)) : List (ℕ × Ghost) → List (Vec4 ℚ)
  | [] => pos
  | (idx, g) :: rest => setGhostPositions (pos.set idx g.position) rest

/-- `HalfSpaceDomain::contains` (Domain.cpp): `v[Z] > 0`. -/
def halfSpaceContains (v : Vec4 ℚ) : Prop :=
  0 < v.z

instance (v : Vec4 ℚ) : Decidable (halfSpaceContains v) :=
  inferInstanceAs (Decidable (0 < v.z))

/-- `HalfSpaceDomain::project` (Domain.cpp): every particle not contained in
the half space has its z component set to 0. -/
def halfSpaceProject (pos : List (Vec4 ℚ)) : List (Vec4 ℚ) :=
  pos.map (fun v => if ¬halfSpaceContains v then { v with z := 0 } else v)

/-- `HalfSpaceDomain::addGhosts` (Domain.cpp): the ghost list is cleared,
then for every contained particle with `z < h * eta` a ghost is pushed at
the position mirrored across the z = 0 plane (`g[Z] -= 2*dist`). -/
def halfSpaceAddGhosts (pos : List (Vec4 ℚ)) (eta : ℚ) : List Ghost :=
  (List.range pos.length).filterMap (fun i =>
    let v := pos.getD i ⟨0, 0, 0, 0⟩
    if halfSpaceContains v ∧ v.z < v.h * eta then
      some ⟨{ v with z := v.z - 2 * v.z }, i⟩
    else
      none)

/-- `GhostParticles::initialize` (Boundary.cpp), specialised to a half-space
domain and a storage carrying the position quantity, with release-build
semantics (the `SPH_ASSERT(ghosts.empty() && ghostIdxs.empty())` is
debug-only and does not clear anything): project the positions, rebuild the
`ghosts` member through `IDomain::addGhosts` (which clears the list),
duplicate one storage row per ghost and move the duplicates to the ghost
positions.  The velocity-mirroring and flag branches are skipped because
the modelled storage has neither quantity. -/
def ghostParticlesInitialize (searchRadius : ℚ) (s : BoundaryState) : BoundaryState :=
  let r1 := halfSpaceProject s.pos
  let gs := halfSpaceAddGhosts r1 searchRadius
  let idxs := gs.map Ghost.index
  let dup := storageDuplicate r1 idxs
  let r2 := setGhostPositions dup.1 (dup.2.zip gs)
  { pos := r2, ghosts := gs, ghostIdxs := dup.2 }

/-- `SymmetricBoundary::initialize` (Boundary.cpp), release-build semantics,
on a storage carrying the position quantity.  One pass over the particles:
a particle with z < 0 is moved to z = 0.1·h, and then the inner
`for (Size j = 0; j < 3; ++j)` loop pushes a ghost mirrored to −z THREE
times whenever z < 2·h (the loop variable j is unused in the source).  The
collected indices are duplicated and the duplicates moved to the ghost
positions.  New ghosts are pushed onto the existing `ghosts` member (the
source only asserts that it is empty). -/
def symmetricBoundaryInitialize (s : BoundaryState) : BoundaryState :=
  let r1 := s.pos.map (fun v => if v.z < 0 then { v with z := (1 / 10) * v.h } else v)
  let radius : ℚ := 2
  let perParticle := (List.range r1.length).map (fun i =>
    let v := r1.getD i ⟨0, 0, 0, 0⟩
    if v.z < radius * v.h then
      ([i, i, i], [Ghost.mk (v - ⟨0, 0, 2 * v.z, 0⟩) i,
                   Ghost.mk (v - ⟨0, 0, 2 * v.z, 0⟩) i,
                   Ghost.mk (v - ⟨0, 0, 2 * v.z, 0⟩) i])
    else
      ([], []))
  let duplIdxs := (perParticle.map Prod.fst).flatten
  let newGhosts := (perParticle.map Prod.snd).flatten
  let ghosts1 := s.ghosts ++ newGhosts
  let dup := storageDuplicate r1 duplIdxs
  let r2 := setGhostPositions dup.1 (dup.2.zip ghosts1)
  { pos := r2, ghosts := ghosts1, ghostIdxs := dup.2 }

/-- `HardSphereSolver::checkCollision` (NBodySolver.cpp) over exact reals
(floats modelled as reals, `sqrt` as `Real.sqrt`).  `NOTHING` is `none`.
The pair is rejected unless it moves towards each other (`dvdr >= 0` returns
nothing); then, if the perpendicular offset at closest approach is within
the summed radii `r1[H] + r2[H]`, the contact time
`-dvdr / dv2 * root` is computed with `root = 1 + sqrt(det)` when
`det > 1` and `1 - sqrt(det)` otherwise, and returned when at most `dt`. -/
noncomputable def checkCollision (r1 v1 r2 v2 : Vec4 ℝ) (dt : ℝ) : Option ℝ :=
  let dr := r1 - r2
  let dv := v1 - v2
  let dvdr := dv.dot dr
  if 0 ≤ dvdr then
    none
  else
    let drPerp := dr - (dv.dot dr / dv.sqrLength) • dv
    if drPerp.sqrLength ≤ (r1.h + r2.h) ^ 2 then
      let dv2 := dv.sqrLength
      let det := 1 - (dr.sqrLength - (r1.h + r2.h) ^ 2) / dvdr ^ 2 * dv2
      let sqrtDet := Real.sqrt (max 0 det)
      let root := if 1 < det then 1 + sqrtDet else 1 - sqrtDet
      let tcoll := -dvdr / dv2 * root
      if tcoll ≤ dt then some tcoll else none
    else
      none

/-- Stated from the spec sentence for claim C5 (refinement reference): `t`
solves the contact equation `|(r1−r2) + (v1−v2)·t|² = (h1+h2)²`. -/
def contactRootP (r1 v1 r2 v2 : Vec4 ℝ) (t : ℝ) : Prop :=
  ((r1 - r2) + t • (v1 - v2)).sqrLength = (r1.h + r2.h) ^ 2

/-- Discriminant-style quantity for the contact quadratic:
`dvdr² − |dv|²·(|dr|² − (h1+h2)²)`. -/
noncomputable def collisionDisc (r1 v1 r2 v2 : Vec4 ℝ) : ℝ :=
  ((v1 - v2).dot (r1 - r2)) ^ 2 -
    (v1 - v2).sqrLength * ((r1 - r2).sqrLength - (r1.h + r2.h) ^ 2)

/-- The smaller root of the contact quadratic. -/
noncomputable def tMinus (r1 v1 r2 v2 : Vec4 ℝ) : ℝ :=
  (-((v1 - v2).dot (r1 - r2)) - Real.sqrt (collisionDisc r1 v1 r2 v2)) / (v1 - v2).sqrLength

/-- The larger root of the contact quadratic. -/
noncomputable def tPlus (r1 v1 r2 v2 : Vec4 ℝ) : ℝ :=
  (-((v1 - v2).dot (r1 - r2)) + Real.sqrt (collisionDisc r1 v1 r2 v2)) / (v1 - v2).sqrLength

/-- Modelled from the spec (§3.4, Multipole.h is not under src/): a
Cartesian multipole of order 1 — a 3-vector.  Stored by its components, as
the source stores the independent components of symmetric multipoles. -/
@[ext]
structure Multipole1 where
  m0 : ℝ
  m1 : ℝ
  m2 : ℝ

/-- Component access for an order-1 multipole. -/
def Multipole1.value (m : Multipole1) : Fin 3 → ℝ
  | 0 => m.m0
  | 1 => m.m1
  | 2 => m.m2

/-- Modelled from the spec (§3.4): a Cartesian multipole of order 2, a fully
symmetric 2-index tensor stored by its 6 independent components. -/
@[ext]
structure Multipole2 where
  c00 : ℝ
  c01 : ℝ
  c02 : ℝ
  c11 : ℝ
  c12 : ℝ
  c22 : ℝ

/-- Symmetric component access for an order-2 multipole: the component is
determined by how many indices equal 0 and how many equal 1. -/
def Multipole2.value (m : Multipole2) (i j : Fin 3) : ℝ :=
  match [i, j].count 0, [i, j].count 1 with
  | 2, _ => m.c00
  | 1, 1 => m.c01
  | 1, 0 => m.c02
  | 0, 2 => m.c11
  | 0, 1 => m.c12
  | _, _ => m.c22

/-- Build an order-2 multipole from a (symmetric) component function. -/
def Multipole2.ofFun (f : Fin 3 → Fin 3 → ℝ) : Multipole2 :=
  ⟨f 0 0, f 0 1, f 0 2, f 1 1, f 1 2, f 2 2⟩

/-- Modelled from the spec (§3.4): a Cartesian multipole of order 3, stored
by its 10 independent components. -/
@[ext]
structure Multipole3 where
  c000 : ℝ
  c001 : ℝ
  c002 : ℝ
  c011 : ℝ
  c012 : ℝ
  c022 : ℝ
  c111 : ℝ
  c112 : ℝ
  c122 : ℝ
  c222 : ℝ

/-- Symmetric component access for an order-3 multipole. -/
def Multipole3.value (m : Multipole3) (i j k : Fin 3) : ℝ :=
  match [i, j, k].count 0, [i, j, k].count 1 with
  | 3, _ => m.c000
  | 2, 1 => m.c001
  | 2, 0 => m.c002
  | 1, 2 => m.c011
  | 1, 1 => m.c012
  | 1, 0 => m.c022
  | 0, 3 => m.c111
  | 0, 2 => m.c112
  | 0, 1 => m.c122
  | _, _ => m.c222

/-- Build an order-3 multipole from a (symmetric) component function. -/
def Multipole3.ofFun (f : Fin 3 → Fin 3 → Fin 3 → ℝ) : Multipole3 :=
  ⟨f 0 0 0, f 0 0 1, f 0 0 2, f 0 1 1, f 0 1 2, f 0 2 2, f 1 1 1, f 1 1 2, f 1 2 2, f 2 2 2⟩

/-- Modelled from the spec (§3.4): a Cartesian multipole of order 4, stored
by its 15 independent components. -/
@[ext]
structure Multipole4 where
  c0000 : ℝ
  c0001 : ℝ
  c0002 : ℝ
  c0011 : ℝ
  c0012 : ℝ
  c0022 : ℝ
  c0111 : ℝ
  c0112 : ℝ
  c0122 : ℝ
  c0222 : ℝ
  c1111 : ℝ
  c1112 : ℝ
  c1122 : ℝ
  c1222 : ℝ
  c2222 : ℝ

/-- Symmetric component access for an order-4 multipole. -/
def Multipole4.value (m : Multipole4) (i j k l : Fin 3) : ℝ :=
  match [i, j, k, l].count 0, [i, j, k, l].count 1 with
  | 4, _ => m.c0000
  | 3, 1 => m.c0001
  | 3, 0 => m.c0002
  | 2, 2 => m.c0011
  | 2, 1 => m.c0012
  | 2, 0 => m.c0022
  | 1, 3 => m.c0111
  | 1, 2 => m.c0112
  | 1, 1 => m.c0122
  | 1, 0 => m.c0222
  | 0, 4 => m.c1111
  | 0, 3 => m.c1112
  | 0, 2 => m.c1122
  | 0, 1 => m.c1222
  | _, _ => m.c2222

/-- Build an order-4 multipole from a (symmetric) component function. -/
def Multipole4.ofFun (f : Fin 3 → Fin 3 → Fin 3 → Fin 3 → ℝ) : Multipole4 :=
  ⟨f 0 0 0 0, f 0 0 0 1, f 0 0 0 2, f 0 0 1 1, f 0 0 1 2, f 0 0 2 2,
    f 0 1 1 1, f 0 1 1 2, f 0 1 2 2, f 0 2 2 2,
    f 1 1 1 1, f 1 1 1 2, f 1 1 2 2, f 1 2 2 2, f 2 2 2 2⟩

/-- The Kronecker delta (`MomentOperators::Delta<2>`, modelled from the
spec's δ). -/
def kdelta (i j : Fin 3) : ℝ :=
  if i = j then 1 else 0

/-- `computeTrace<1>` of an order-4 multipole: contraction of two indices
(`MomentOperators::makeContraction`; the slots are immaterial for a
symmetric tensor). -/
def Multipole4.contract (m : Multipole4) : Multipole2 :=
  Multipole2.ofFun (fun i j => m.value i j 0 0 + m.value i j 1 1 + m.value i j 2 2)

/-- `computeTrace<1>` of an order-3 multipole. -/
def Multipole3.contract (m : Multipole3) : Multipole1 :=
  ⟨m.c000 + m.c011 + m.c022, m.c001 + m.c111 + m.c122, m.c002 + m.c112 + m.c222⟩

/-- `computeTrace<1>` of an order-2 multipole: the full trace. -/
def Multipole2.contract (m : Multipole2) : ℝ :=
  m.c00 + m.c11 + m.c22

/-- `reducedFactor<N, M>` (Moments.h): the coefficient
`(−1)^M (2N−2M−1)!! / (M! (2N−1)!!)`. -/
noncomputable def reducedFactor (n m : ℕ) : ℝ :=
  (if Odd m then -1 else 1) * (Nat.doubleFactorial (2 * n - 2 * m - 1) : ℝ) /
    ((Nat.factorial m : ℝ) * (Nat.doubleFactorial (2 * n - 1) : ℝ))

/-- Modelled from the spec: `makePermutations(Delta<2>, T)` for an order-1
`T` producing an order-3 tensor — the sum over the 3 placements of the
delta, matching the permutation convention visible in the source's
`MomentOperators::Term2`. -/
def permDeltaT1 (t : Multipole1) (i j k : Fin 3) : ℝ :=
  kdelta i j * t.value k + kdelta i k * t.value j + kdelta j k * t.value i

/-- Modelled from the spec: `makePermutations(Delta<2>, T)` for an order-2
`T` producing an order-4 tensor — the sum over the 6 ordered pairings,
matching the 6-term permutation convention of the source's
`MomentOperators::Term30`. -/
def permDeltaT2 (t : Multipole2) (i j k l : Fin 3) : ℝ :=
  kdelta i j * t.value k l + kdelta i k * t.value j l + kdelta i l * t.value j k +
    kdelta j k * t.value i l + kdelta j l * t.value i k + kdelta k l * t.value i j

/-- Modelled from the spec: `Delta<4>`, the symmetrised product of two
deltas with both orders of the (distinguishable) deltas counted, i.e.
`makePermutations(Delta<2>, Delta<2>)` with the same 6-term convention. -/
def delta4 (i j k l : Fin 3) : ℝ :=
  kdelta i j * kdelta k l + kdelta i k * kdelta j l + kdelta i l * kdelta j k +
    kdelta j k * kdelta i l + kdelta j l * kdelta i k + kdelta k l * kdelta i j

/-- `computeReducedMultipole<4>` (Moments.h):
`T0*f0 + makePermutations(Delta<2>, T1)*f1 + Delta<4>*T2*f2` with
`T1 = computeTrace<1>(m)` and `T2 = computeTrace<2>(m)`.
`makeTracelessMultipole` only re-packs the independent components and is
modelled as the identity on tensor values (spec §3.4). -/
noncomputable def computeReducedMultipole4 (m : Multipole4) : Multipole4 :=
  Multipole4.ofFun (fun i j k l =>
    reducedFactor 4 0 * m.value i j k l +
      reducedFactor 4 1 * permDeltaT2 m.contract i j k l +
      reducedFactor 4 2 * m.contract.contract * delta4 i j k l)

/-- `computeReducedMultipole<3>` (Moments.h):
`T0*f0 + makePermutations(Delta<2>, T1)*f1` with `T1 = computeTrace<1>(m)`. -/
noncomputable def computeReducedMultipole3 (m : Multipole3) : Multipole3 :=
  Multipole3.ofFun (fun i j k =>
    reducedFactor 3 0 * m.value i j k + reducedFactor 3 1 * permDeltaT1 m.contract i j k)

/-- `computeReducedMultipole<2>` (Moments.h):
`T0*f0 + makePermutations(Delta<2>, T1)*f1` with the scalar trace `T1`. -/
noncomputable def computeReducedMultipole2 (m : Multipole2) : Multipole2 :=
  Multipole2.ofFun (fun i j =>
    reducedFactor 2 0 * m.value i j + reducedFactor 2 1 * m.contract * kdelta i j)

/-- `computeReducedMultipole<1>` (Moments.h): `T0*f0`. -/
noncomputable def computeReducedMultipole1 (m : Multipole1) : Multipole1 :=
  ⟨reducedFactor 1 0 * m.m0, reducedFactor 1 0 * m.m1, reducedFactor 1 0 * m.m2⟩

/-- `OuterProduct<2>` of a vector (Moments.h builds `d2` this way). -/
def outer2 (d : Multipole1) : Multipole2 :=
  Multipole2.ofFun (fun i j => d.value i * d.value j)

/-- Vector negation (`Vector::operator-`). -/
def Multipole1.neg (d : Multipole1) : Multipole1 :=
  ⟨-d.m0, -d.m1, -d.m2⟩

/-- Addition of order-1 multipoles. -/
def Multipole1.add (a b : Multipole1) : Multipole1 :=
  ⟨a.m0 + b.m0, a.m1 + b.m1, a.m2 + b.m2⟩

instance instMultipole1Add : Add Multipole1 := ⟨Multipole1.add⟩

/-- `parallelAxisTheorem` for order 1 (Moments.h):
`Qi + OuterProduct<1>{d} * Q`. -/
def parallelAxisTheorem1 (qi : Multipole1) (q : ℝ) (d : Multipole1) : Multipole1 :=
  ⟨qi.m0 + d.m0 * q, qi.m1 + d.m1 * q, qi.m2 + d.m2 * q⟩

/-- `parallelAxisTheorem` for order 2 (Moments.h):
`Qij + computeReducedMultipole(d ⊗ d) * Q`. -/
noncomputable def parallelAxisTheorem2 (qij : Multipole2) (q : ℝ) (d : Multipole1) : Multipole2 :=
  Multipole2.ofFun (fun i j =>
    qij.value i j + (computeReducedMultipole2 (outer2 d)).value i j * q)

/-- Lane-wise negation of a 4-lane vector (`Vector::operator-`). -/
def Vec4.neg (a : Vec4 K) : Vec4 K :=
  ⟨-a.x, -a.y, -a.z, -a.h⟩

instance instVec4Neg : Neg (Vec4 K) := ⟨Vec4.neg⟩

/-- `toMultipole` (Moments.h): the order-1 multipole of a vector. -/
def toMultipole (v : Vec4 ℝ) : Multipole1 :=
  ⟨v.x, v.y, v.z⟩

/-- `computeGreenGamma` (Moments.h): `gamma[0] = −sqrt(1/|dr|²)` and the
recurrence `gamma[i] = −(2i−1) · (1/|dr|²) · gamma[i−1]`. -/
noncomputable def greenGamma (dr : Vec4 ℝ) : ℕ → ℝ
  | 0 => -Real.sqrt (1 / dr.sqrLength)
  | n + 1 => -(2 * (n + 1 : ℝ) - 1) * (1 / dr.sqrLength) * greenGamma dr n

/-- Modelled from the spec (§4.8, the `MultipoleExpansion` template of
Multipole.h is not under src/): the traceless multipoles of a tree node for
orders 0…4, each stored as its full value tensor. -/
structure MultipoleExpansion where
  q0 : ℝ
  q1 : Multipole1
  q2 : Multipole2
  q3 : Multipole3
  q4 : Multipole4

/-- `computeMultipolePotential<0, 2>` (Moments.h): full contraction of the
order-2 multipole with `r ⊗ r`, divided by 2!. -/
noncomputable def computeMultipolePotential02 (q : Multipole2) (r : Multipole1) : ℝ :=
  (∑ i, ∑ j, r.value i * r.value j * q.value i j) * (1 / (Nat.factorial 2 : ℝ))

/-- `computeMultipolePotential<0, 3>` (Moments.h): full contraction of the
order-3 multipole with `r ⊗ r ⊗ r`, divided by 3!. -/
noncomputable def computeMultipolePotential03 (q : Multipole3) (r : Multipole1) : ℝ :=
  (∑ i, ∑ j, ∑ k, r.value i * r.value j * r.value k * q.value i j k) *
    (1 / (Nat.factorial 3 : ℝ))

/-- `computeMultipolePotential<1, 2>` (Moments.h): contraction of the
order-2 multipole with one factor of `r`, divided by 1!. -/
noncomputable def computeMultipolePotential12 (q : Multipole2) (r : Multipole1) : Multipole1 :=
  ⟨(∑ i, r.value i * q.value i 0) * (1 / (Nat.factorial 1 : ℝ)),
    (∑ i, r.value i * q.value i 1) * (1 / (Nat.factorial 1 : ℝ)),
    (∑ i, r.value i * q.value i 2) * (1 / (Nat.factorial 1 : ℝ))⟩

/-- `computeMultipolePotential<1, 3>` (Moments.h): contraction of the
order-3 multipole with two factors of `r`, divided by 2!. -/
noncomputable def computeMultipolePotential13 (q : Multipole3) (r : Multipole1) : Multipole1 :=
  ⟨(∑ i, ∑ j, r.value i * r.value j * q.value i j 0) * (1 / (Nat.factorial 2 : ℝ)),
    (∑ i, ∑ j, r.value i * r.value j * q.value i j 1) * (1 / (Nat.factorial 2 : ℝ)),
    (∑ i, ∑ j, r.value i * r.value j * q.value i j 2) * (1 / (Nat.factorial 2 : ℝ))⟩

/-- `computeMultipoleAcceleration<0>` (Moments.h):
`a = gamma[1] * dr * Q0 + gamma[0] * Q1` where `Q0` is the monopole itself
and `Q1` is zero (the `M > N` branch of `computeMultipolePotential`).  Only
the three spatial lanes of the `Vector` result are modelled. -/
noncomputable def computeMultipoleAcceleration0 (ms : MultipoleExpansion) (gamma : ℕ → ℝ)
    (dr : Vec4 ℝ) : Multipole1 :=
  ⟨gamma 1 * dr.x * ms.q0 + gamma 0 * 0,
    gamma 1 * dr.y * ms.q0 + gamma 0 * 0,
    gamma 1 * dr.z * ms.q0 + gamma 0 * 0⟩

/-- `computeMultipoleAcceleration<2>` (Moments.h):
`a = gamma[3] * dr * Q0 + gamma[2] * Q1` for the quadrupole. -/
noncomputable def computeMultipoleAcceleration2 (ms : MultipoleExpansion) (gamma : ℕ → ℝ)
    (dr : Vec4 ℝ) : Multipole1 :=
  ⟨gamma 3 * dr.x * computeMultipolePotential02 ms.q2 (toMultipole dr) +
      gamma 2 * (computeMultipolePotential12 ms.q2 (toMultipole dr)).m0,
    gamma 3 * dr.y * computeMultipolePotential02 ms.q2 (toMultipole dr) +
      gamma 2 * (computeMultipolePotential12 ms.q2 (toMultipole dr)).m1,
    gamma 3 * dr.z * computeMultipolePotential02 ms.q2 (toMultipole dr) +
      gamma 2 * (computeMultipolePotential12 ms.q2 (toMultipole dr)).m2⟩

/-- `computeMultipoleAcceleration<3>` (Moments.h):
`a = gamma[4] * dr * Q0 + gamma[3] * Q1` for the octupole. -/
noncomputable def computeMultipoleAcceleration3 (ms : MultipoleExpansion) (gamma : ℕ → ℝ)
    (dr : Vec4 ℝ) : Multipole1 :=
  ⟨gamma 4 * dr.x * computeMultipolePotential03 ms.q3 (toMultipole dr) +
      gamma 3 * (computeMultipolePotential13 ms.q3 (toMultipole dr)).m0,
    gamma 4 * dr.y * computeMultipolePotential03 ms.q3 (toMultipole dr) +
      gamma 3 * (computeMultipolePotential13 ms.q3 (toMultipole dr)).m1,
    gamma 4 * dr.z * computeMultipolePotential03 ms.q3 (toMultipole dr) +
      gamma 3 * (computeMultipolePotential13 ms.q3 (toMultipole dr)).m2⟩

/-- `MultipoleOrder` (Moments.h): MONOPOLE = 0, QUADRUPOLE = 2,
OCTUPOLE = 3, HEXADECAPOLE = 4. -/
inductive MultipoleOrder where
  | MONOPOLE
  | QUADRUPOLE
  | OCTUPOLE
  | HEXADECAPOLE

/-- `evaluateGravity` (Moments.h): the switch over `maxOrder` with
fall-through accumulation — OCTUPOLE adds the order-3, order-2 and order-0
contributions (each evaluated at `−dr` with the Green gammas of `dr`),
QUADRUPOLE the order-2 and order-0 ones, MONOPOLE the order-0 one; the
`default:` branch, reached for HEXADECAPOLE, is `NOT_IMPLEMENTED` (an
abort), modelled as `none`. -/
noncomputable def evaluateGravity (dr : Vec4 ℝ) (ms : MultipoleExpansion)
    (maxOrder : MultipoleOrder) : Option Multipole1 :=
  let gamma := greenGamma dr
  match maxOrder with
  | MultipoleOrder.OCTUPOLE =>
    some (computeMultipoleAcceleration3 ms gamma (-dr) +
      computeMultipoleAcceleration2 ms gamma (-dr) +
      computeMultipoleAcceleration0 ms gamma (-dr))
  | MultipoleOrder.QUADRUPOLE =>
    some (computeMultipoleAcceleration2 ms gamma (-dr) +
      computeMultipoleAcceleration0 ms gamma (-dr))
  | MultipoleOrder.MONOPOLE =>
    some (computeMultipoleAcceleration0 ms gamma (-dr))
  | MultipoleOrder.HEXADECAPOLE => none

/-- Stated from the claim for C1 (refinement reference): the multipole
orders whose acceleration contributions are summed for each `maxOrder`
(the stored expansion has no odd orders below 3 other than the dipole,
which vanishes about the centre of mass and is never evaluated). -/
def gravityOrders : MultipoleOrder → List ℕ
  | MultipoleOrder.MONOPOLE => [0]
  | MultipoleOrder.QUADRUPOLE => [0, 2]
  | MultipoleOrder.OCTUPOLE => [0, 2, 3]
  | MultipoleOrder.HEXADECAPOLE => [0, 2, 3, 4]

/-- The acceleration contribution of one multipole order (orders other than
0, 2, 3 contribute nothing in the evaluator). -/
noncomputable def multipoleContribution (ms : MultipoleExpansion) (gamma : ℕ → ℝ)
    (dr : Vec4 ℝ) : ℕ → Multipole1
  | 0 => computeMultipoleAcceleration0 ms gamma dr
  | 2 => computeMultipoleAcceleration2 ms gamma dr
  | 3 => computeMultipoleAcceleration3 ms gamma dr
  | _ => ⟨0, 0, 0⟩

/-- Sum of a list of order-1 multipoles (vectors). -/
def sumM1 (l : List Multipole1) : Multipole1 :=
  l.foldr (· + ·) ⟨0, 0, 0⟩

/-! ### Helper lemmas -/

theorem Vec4.sub_def (a b : Vec4 K) :
    a - b = ⟨a.x - b.x, a.y - b.y, a.z - b.z, a.h - b.h⟩ :=
  rfl

theorem Vec4.add_def (a b : Vec4 K) :
    a + b = ⟨a.x + b.x, a.y + b.y, a.z + b.z, a.h + b.h⟩ :=
  rfl

theorem Vec4.smul_def (c : K) (a : Vec4 K) :
    c • a = ⟨c * a.x, c * a.y, c * a.z, c * a.h⟩ :=
  rfl

theorem Vec4.sqrLength_nonneg (v : Vec4 ℝ) : 0 ≤ v.sqrLength := by
  unfold Vec4.sqrLength Vec4.dot
  nlinarith [mul_self_nonneg v.x, mul_self_nonneg v.y, mul_self_nonneg v.z]

theorem Vec4.sqrLength_pos_of_dot_neg (v w : Vec4 ℝ) (h : v.dot w < 0) :
    0 < v.sqrLength := by
  rcases lt_or_eq_of_le (Vec4.sqrLength_nonneg v) with hp | hz
  · exact hp
  · exfalso
    have hx : v.x = 0 := by
      unfold Vec4.sqrLength Vec4.dot at hz
      nlinarith [mul_self_nonneg v.x, mul_self_nonneg v.y, mul_self_nonneg v.z]
    have hy : v.y = 0 := by
      unfold Vec4.sqrLength Vec4.dot at hz
      nlinarith [mul_self_nonneg v.x, mul_self_nonneg v.y, mul_self_nonneg v.z]
    have hzc : v.z = 0 := by
      unfold Vec4.sqrLength Vec4.dot at hz
      nlinarith [mul_self_nonneg v.x, mul_self_nonneg v.y, mul_self_nonneg v.z]
    unfold Vec4.dot at h
    rw [hx, hy, hzc] at h
    norm_num at h

theorem Vec4.sqrLength_add_smul (a b : Vec4 ℝ) (t : ℝ) :
    (a + t • b).sqrLength = a.sqrLength + 2 * t * (b.dot a) + t ^ 2 * b.sqrLength := by
  simp only [Vec4.sqrLength, Vec4.dot, Vec4.add_def, Vec4.smul_def]
  ring

theorem Vec4.sqrLength_sub_smul (a b : Vec4 ℝ) (c : ℝ) :
    (a - c • b).sqrLength = a.sqrLength - 2 * c * (b.dot a) + c ^ 2 * b.sqrLength := by
  simp only [Vec4.sqrLength, Vec4.dot, Vec4.sub_def, Vec4.smul_def]
  ring

theorem quadratic_roots_eval (A B C : ℝ) (hA : 0 < A) (hD : 0 ≤ B ^ 2 - A * C) :
    A * ((-B - Real.sqrt (B ^ 2 - A * C)) / A) ^ 2 +
        2 * B * ((-B - Real.sqrt (B ^ 2 - A * C)) / A) + C = 0 ∧
      A * ((-B + Real.sqrt (B ^ 2 - A * C)) / A) ^ 2 +
        2 * B * ((-B + Real.sqrt (B ^ 2 - A * C)) / A) + C = 0 := by
  have hs : Real.sqrt (B ^ 2 - A * C) ^ 2 = B ^ 2 - A * C := Real.sq_sqrt hD
  have hA0 : A ≠ 0 := ne_of_gt hA
  constructor
  · field_simp
    nlinarith [hs]
  · field_simp
    nlinarith [hs]

theorem quadratic_smaller_root_le (A B C s : ℝ) (hA : 0 < A) (hD : 0 ≤ B ^ 2 - A * C)
    (hroot : A * s ^ 2 + 2 * B * s + C = 0) :
    (-B - Real.sqrt (B ^ 2 - A * C)) / A ≤ s := by
  have hs : Real.sqrt (B ^ 2 - A * C) ^ 2 = B ^ 2 - A * C := Real.sq_sqrt hD
  have hsn : 0 ≤ Real.sqrt (B ^ 2 - A * C) := Real.sqrt_nonneg _
  have hA0 : A ≠ 0 := ne_of_gt hA
  have hfact : A * (s - (-B - Real.sqrt (B ^ 2 - A * C)) / A) *
      (s - (-B + Real.sqrt (B ^ 2 - A * C)) / A) = 0 := by
    field_simp
    nlinarith [hs, hroot]
  rcases mul_eq_zero.mp hfact with h1 | h2
  · rcases mul_eq_zero.mp h1 with h3 | h4
    · exact absurd h3 hA0
    · linarith [sub_eq_zero.mp h4]
  · have hse : s = (-B + Real.sqrt (B ^ 2 - A * C)) / A := sub_eq_zero.mp h2
    rw [hse]
    apply div_le_div_of_nonneg_right ?_ hA.le
    linarith

theorem reducedFactor_one_zero : reducedFactor 1 0 = 1 := by
  norm_num [reducedFactor, show Nat.doubleFactorial 1 = 1 from rfl]

theorem reducedFactor_two_zero : reducedFactor 2 0 = 1 := by
  norm_num [reducedFactor, show Nat.doubleFactorial 3 = 3 from rfl]

theorem reducedFactor_two_one : reducedFactor 2 1 = -(1 / 3) := by
  norm_num [reducedFactor, show Nat.doubleFactorial 1 = 1 from rfl,
    show Nat.doubleFactorial 3 = 3 from rfl]

theorem reducedFactor_three_zero : reducedFactor 3 0 = 1 := by
  norm_num [reducedFactor, show Nat.doubleFactorial 5 = 15 from rfl]

theorem reducedFactor_three_one : reducedFactor 3 1 = -(1 / 5) := by
  norm_num [reducedFactor, show Nat.doubleFactorial 3 = 3 from rfl,
    show Nat.doubleFactorial 5 = 15 from rfl]

theorem reducedFactor_four_zero : reducedFactor 4 0 = 1 := by
  norm_num [reducedFactor, show Nat.doubleFactorial 7 = 105 from rfl]

theorem reducedFactor_four_one : reducedFactor 4 1 = -(1 / 7) := by
  norm_num [reducedFactor, show Nat.doubleFactorial 5 = 15 from rfl,
    show Nat.doubleFactorial 7 = 105 from rfl]

theorem reducedFactor_four_two : reducedFactor 4 2 = 1 / 70 := by
  norm_num [reducedFactor, Nat.odd_iff, show Nat.doubleFactorial 3 = 3 from rfl,
    show Nat.doubleFactorial 7 = 105 from rfl]

theorem setGhostPositions_length (l : List (ℕ × Ghost)) (pos : List (Vec4 ℚ)) :
    (setGhostPositions pos l).length = pos.length := by
  induction l generalizing pos with
  | nil => rfl
  | cons hd rest ih =>
    obtain ⟨idx, g⟩ := hd
    simp [setGhostPositions, ih]

/-! ### Claim theorems -/

/-- C4: the claim states that `invariant<2>` returns the sum of the three
principal 2×2 minors; at the identity tensor the code yields −3 while the
sum of minors is 3, refuting the claim. -/
theorem invariant_two_counterexample :
    SymmetricTensor.invariant SymmetricTensor.identity 2 ≠
        specMinorSum SymmetricTensor.identity ∧
      SymmetricTensor.invariant SymmetricTensor.identity 2 = -3 ∧
      specMinorSum SymmetricTensor.identity = 3 := by
  refine ⟨?_, ?_, ?_⟩ <;>
    norm_num [SymmetricTensor.invariant, SymmetricTensor.identity, specMinorSum]

/-- C4 (amended): `invariant<1>` returns the trace and `invariant<3>` the
determinant (equal to the textbook 3×3 determinant), but `invariant<2>`
returns the NEGATIVE of the sum of the three principal 2×2 minors; this
sign convention matches the use `q = -invariant<2>/n²` in
`findEigenvalues`. -/
theorem invariant_values (t : SymmetricTensor) :
    t.invariant 1 = t.trace ∧
      t.invariant 2 = -specMinorSum t ∧
      t.invariant 3 = specDet3 t := by
  refine ⟨rfl, ?_, ?_⟩
  · show (t.o0 ^ 2 + t.o1 ^ 2 + t.o2 ^ 2) - (t.d1 * t.d2 + t.d2 * t.d0 + t.d0 * t.d1) =
      -specMinorSum t
    unfold specMinorSum
    ring
  · show t.determinant = specDet3 t
    unfold SymmetricTensor.determinant specDet3
    ring

/-- C8: clamping a traceless tensor equals the component-wise clamped tensor
minus trace/3 times the identity, and the result has exactly zero trace, so
clamping preserves the traceless invariant. -/
theorem clamp_traceless_preserves_invariant (t : TracelessTensor) (iv : Interval) :
    (t.clampT iv).toSymmetric =
        (t.toSymmetric.clampComponents iv).sub
          (SymmetricTensor.smul ((t.toSymmetric.clampComponents iv).trace / 3)
            SymmetricTensor.identity) ∧
      (t.clampT iv).toSymmetric.trace = 0 := by
  constructor
  · unfold TracelessTensor.clampT TracelessTensor.toSymmetric TracelessTensor.ofSymmetric
      SymmetricTensor.sub SymmetricTensor.smul SymmetricTensor.identity SymmetricTensor.trace
    ext <;> dsimp <;> ring
  · unfold TracelessTensor.clampT TracelessTensor.toSymmetric TracelessTensor.ofSymmetric
      SymmetricTensor.sub SymmetricTensor.smul SymmetricTensor.identity SymmetricTensor.trace
    dsimp
    ring

/-- C10: because the three diagonal entries of a traceless tensor sum to
zero, `minElement` is always ≤ 0 and `maxElement` always ≥ 0 (the internal
assertions cannot fail in exact arithmetic). -/
theorem traceless_min_nonpos_max_nonneg (t : TracelessTensor) :
    t.minElement ≤ 0 ∧ 0 ≤ t.maxElement := by
  have key : t.m0 ≤ 0 ∨ t.m1 ≤ 0 ∨ -t.m0 - t.m1 ≤ 0 := by
    by_contra hcon
    push_neg at hcon
    obtain ⟨h1, h2, h3⟩ := hcon
    linarith
  have keymax : 0 ≤ t.m0 ∨ 0 ≤ t.m1 ∨ 0 ≤ -t.m0 - t.m1 := by
    by_contra hcon
    push_neg at hcon
    obtain ⟨h1, h2, h3⟩ := hcon
    linarith
  constructor
  · unfold TracelessTensor.minElement
    simp only [min_le_iff]
    rcases key with h | h | h <;> tauto
  · unfold TracelessTensor.maxElement
    simp only [le_max_iff]
    rcases keymax with h | h | h <;> tauto

/-- C9: the accumulated accelerations produced by
`StandardAVDerivative::compute` are unchanged if all non-converging
neighbour pairs (`dot(v_i − v_j, r_i − r_j) ≥ 0`) are removed from the
neighbour list: only converging pairs contribute. -/
theorem av_only_converging_pairs_contribute (alpha beta : ℚ) (st : AVState) (i : ℕ)
    (pairs : List (ℕ × Vec4 ℚ)) (dv : ℕ → Vec4 ℚ) :
    avCompute alpha beta st i pairs dv =
      avCompute alpha beta st i
        (pairs.filter fun p => decide ((st.v i - st.v p.1).dot (st.r i - st.r p.1) < 0)) dv := by
  induction pairs generalizing dv with
  | nil => rfl
  | cons hd rest ih =>
    obtain ⟨j, grad⟩ := hd
    by_cases hc : 0 ≤ (st.v i - st.v j).dot (st.r i - st.r j)
    · rw [List.filter_cons_of_neg (by simpa using not_lt.mpr hc)]
      rw [show avCompute alpha beta st i ((j, grad) :: rest) dv =
          avCompute alpha beta st i rest dv by simp [avCompute, hc]]
      exact ih dv
    · rw [List.filter_cons_of_pos (by simpa using lt_of_not_ge hc)]
      have hstep : ∀ (tl : List (ℕ × Vec4 ℚ)) (dv0 : ℕ → Vec4 ℚ),
          avCompute alpha beta st i ((j, grad) :: tl) dv0 =
          avCompute alpha beta st i tl
            (let dvdr : ℚ := (st.v i - st.v j).dot (st.r i - st.r j)
             let hbar : ℚ := (1 / 2) * ((st.r i).h + (st.r j).h)
             let rhobar : ℚ := (1 / 2) * (st.rho i + st.rho j)
             let csbar : ℚ := (1 / 2) * (st.cs i + st.cs j)
             let mu : ℚ := hbar * dvdr / ((st.r i - st.r j).sqrLength + avEps * hbar ^ 2)
             let p : Vec4 ℚ := (1 / rhobar * (-(alpha * csbar * mu) + beta * mu ^ 2)) • grad
             let dv1 := Function.update dv0 i (dv0 i + st.m j • p)
             Function.update dv1 j (dv1 j - st.m i • p)) := by
        intro tl dv0
        simp [avCompute, hc]
      rw [hstep rest dv, hstep _ dv]
      exact ih _

/-- C3: in `SymmetricBoundary::initialize` the inner `for (j = 0; j < 3;)`
loop never uses `j`, so a single particle at (0,0,1) with h = 1 (within the
support radius 2·h of the plane) gets THREE identical ghosts at z = −1, not
the single ghost promised by the claim; the storage grows from 1 to 4
particles. -/
theorem symmetric_boundary_triple_ghost :
    (symmetricBoundaryInitialize ⟨[⟨0, 0, 1, 1⟩], [], []⟩).ghosts.length = 3 ∧
      (symmetricBoundaryInitialize ⟨[⟨0, 0, 1, 1⟩], [], []⟩).pos.length = 4 ∧
      (symmetricBoundaryInitialize ⟨[⟨0, 0, 1, 1⟩], [], []⟩).ghosts.map
          (fun g => g.position.z) = [-1, -1, -1] := by
  refine ⟨?_, ?_, ?_⟩ <;>
    norm_num [symmetricBoundaryInitialize, storageDuplicate, setGhostPositions,
      List.range_succ, List.filterMap_cons, List.getD, Vec4.sub_def]

/-- C2: two `GhostParticles::initialize` calls without a `finalize` are not
idempotent: for a half-space domain with one particle at (0,0,1), h = 1 and
search radius 2, a single call leaves 2 storage rows while a second call
leaves 3 — the ghost row added by the first call stays in the storage
(projected onto the boundary) and a fresh ghost row is appended. -/
theorem ghost_double_initialize_counterexample :
    (ghostParticlesInitialize 2
          (ghostParticlesInitialize 2 ⟨[⟨0, 0, 1, 1⟩], [], []⟩)).pos.length ≠
        (ghostParticlesInitialize 2 ⟨[⟨0, 0, 1, 1⟩], [], []⟩).pos.length ∧
      (ghostParticlesInitialize 2
          (ghostParticlesInitialize 2 ⟨[⟨0, 0, 1, 1⟩], [], []⟩)).pos.length = 3 ∧
      (ghostParticlesInitialize 2 ⟨[⟨0, 0, 1, 1⟩], [], []⟩).pos.length = 2 := by
  refine ⟨?_, ?_, ?_⟩ <;>
    norm_num [ghostParticlesInitialize, halfSpaceProject, halfSpaceAddGhosts,
      halfSpaceContains, storageDuplicate, setGhostPositions, List.range_succ,
      List.filterMap_cons, List.getD, Vec4.sub_def]

/-- C2 (amended): `GhostParticles::initialize` does not clear the ghost list
at the top (it only asserts emptiness, a debug-only check); the list is
rebuilt from scratch inside `IDomain::addGhosts`, so the ghost list itself
is not doubled, but every call appends exactly one storage row per computed
ghost, so a second call without `finalize` grows the particle count
further. -/
theorem ghost_initialize_adds_ghost_rows (searchRadius : ℚ) (s : BoundaryState) :
    (ghostParticlesInitialize searchRadius s).pos.length =
        s.pos.length + (ghostParticlesInitialize searchRadius s).ghosts.length ∧
      (ghostParticlesInitialize searchRadius s).ghosts =
        halfSpaceAddGhosts (halfSpaceProject s.pos) searchRadius := by
  constructor
  · show (setGhostPositions _ _).length = _
    rw [setGhostPositions_length]
    simp [storageDuplicate, halfSpaceProject, ghostParticlesInitialize]
  · rfl

/-- C5 (amended): when the pair is converging (`dvdr < 0`) and the
perpendicular offset at closest approach is within `h1 + h2`, the code
returns the SMALLER root of `|(r1−r2) + (v1−v2)t|² = (h1+h2)²` when the
spheres do not yet overlap (`|r1−r2| ≥ h1+h2`, where the smaller root is
automatically ≥ 0) but the LARGER root when they already overlap, in both
cases only if that root is at most `dt`; both values solve the contact
equation and the smaller root is minimal among all solutions. -/
theorem checkCollision_characterization (r1 v1 r2 v2 : Vec4 ℝ) (dt : ℝ)
    (hconv : (v1 - v2).dot (r1 - r2) < 0)
    (hperp : ((r1 - r2) - ((v1 - v2).dot (r1 - r2) / (v1 - v2).sqrLength) • (v1 - v2)).sqrLength ≤
      (r1.h + r2.h) ^ 2) :
    (checkCollision r1 v1 r2 v2 dt =
        if (r1 - r2).sqrLength < (r1.h + r2.h) ^ 2 then
          if tPlus r1 v1 r2 v2 ≤ dt then some (tPlus r1 v1 r2 v2) else none
        else
          if tMinus r1 v1 r2 v2 ≤ dt then some (tMinus r1 v1 r2 v2) else none) ∧
      contactRootP r1 v1 r2 v2 (tMinus r1 v1 r2 v2) ∧
      contactRootP r1 v1 r2 v2 (tPlus r1 v1 r2 v2) ∧
      (∀ s, contactRootP r1 v1 r2 v2 s → tMinus r1 v1 r2 v2 ≤ s) ∧
      ((r1.h + r2.h) ^ 2 ≤ (r1 - r2).sqrLength → 0 ≤ tMinus r1 v1 r2 v2) := by
  have hdv2 : 0 < (v1 - v2).sqrLength := Vec4.sqrLength_pos_of_dot_neg _ _ hconv
  have hdv20 : (v1 - v2).sqrLength ≠ 0 := ne_of_gt hdv2
  have hdvdr0 : (v1 - v2).dot (r1 - r2) ≠ 0 := ne_of_lt hconv
  have hdvdr2 : (0 : ℝ) < ((v1 - v2).dot (r1 - r2)) ^ 2 := by positivity
  have hperpEq : ((r1 - r2) -
      ((v1 - v2).dot (r1 - r2) / (v1 - v2).sqrLength) • (v1 - v2)).sqrLength =
      (r1 - r2).sqrLength - ((v1 - v2).dot (r1 - r2)) ^ 2 / (v1 - v2).sqrLength := by
    rw [Vec4.sqrLength_sub_smul]
    field_simp
    ring
  have hDnn : 0 ≤ ((v1 - v2).dot (r1 - r2)) ^ 2 -
      (v1 - v2).sqrLength * ((r1 - r2).sqrLength - (r1.h + r2.h) ^ 2) := by
    rw [hperpEq] at hperp
    have h2 : (r1 - r2).sqrLength - (r1.h + r2.h) ^ 2 ≤
        ((v1 - v2).dot (r1 - r2)) ^ 2 / (v1 - v2).sqrLength := by linarith
    have h3 := mul_le_mul_of_nonneg_left h2 hdv2.le
    have h4 : (v1 - v2).sqrLength * (((v1 - v2).dot (r1 - r2)) ^ 2 / (v1 - v2).sqrLength) =
        ((v1 - v2).dot (r1 - r2)) ^ 2 := by field_simp
    linarith
  have hDisc : collisionDisc r1 v1 r2 v2 = ((v1 - v2).dot (r1 - r2)) ^ 2 -
      (v1 - v2).sqrLength * ((r1 - r2).sqrLength - (r1.h + r2.h) ^ 2) := rfl
  have hquad := quadratic_roots_eval (v1 - v2).sqrLength ((v1 - v2).dot (r1 - r2))
    ((r1 - r2).sqrLength - (r1.h + r2.h) ^ 2) hdv2 hDnn
  have hbridge : ∀ t : ℝ, contactRootP r1 v1 r2 v2 t ↔
      (v1 - v2).sqrLength * t ^ 2 + 2 * ((v1 - v2).dot (r1 - r2)) * t +
        ((r1 - r2).sqrLength - (r1.h + r2.h) ^ 2) = 0 := by
    intro t
    unfold contactRootP
    rw [Vec4.sqrLength_add_smul]
    constructor <;> intro hyp <;> linarith
  have htm : tMinus r1 v1 r2 v2 =
      (-((v1 - v2).dot (r1 - r2)) - Real.sqrt (((v1 - v2).dot (r1 - r2)) ^ 2 -
        (v1 - v2).sqrLength * ((r1 - r2).sqrLength - (r1.h + r2.h) ^ 2))) /
        (v1 - v2).sqrLength := by
    unfold tMinus
    rw [hDisc]
  have htp : tPlus r1 v1 r2 v2 =
      (-((v1 - v2).dot (r1 - r2)) + Real.sqrt (((v1 - v2).dot (r1 - r2)) ^ 2 -
        (v1 - v2).sqrLength * ((r1 - r2).sqrLength - (r1.h + r2.h) ^ 2))) /
        (v1 - v2).sqrLength := by
    unfold tPlus
    rw [hDisc]
  refine ⟨?_, ?_, ?_, ?_, ?_⟩
  · -- evaluation of the code under the two hypotheses
    have hdet : 1 - ((r1 - r2).sqrLength - (r1.h + r2.h) ^ 2) /
        ((v1 - v2).dot (r1 - r2)) ^ 2 * (v1 - v2).sqrLength =
        (((v1 - v2).dot (r1 - r2)) ^ 2 -
          (v1 - v2).sqrLength * ((r1 - r2).sqrLength - (r1.h + r2.h) ^ 2)) /
          ((v1 - v2).dot (r1 - r2)) ^ 2 := by
      field_simp
      ring
    have hdetnn : 0 ≤ 1 - ((r1 - r2).sqrLength - (r1.h + r2.h) ^ 2) /
        ((v1 - v2).dot (r1 - r2)) ^ 2 * (v1 - v2).sqrLength := by
      rw [hdet]
      exact div_nonneg hDnn hdvdr2.le
    have hmax : max 0 (1 - ((r1 - r2).sqrLength - (r1.h + r2.h) ^ 2) /
        ((v1 - v2).dot (r1 - r2)) ^ 2 * (v1 - v2).sqrLength) =
        1 - ((r1 - r2).sqrLength - (r1.h + r2.h) ^ 2) /
          ((v1 - v2).dot (r1 - r2)) ^ 2 * (v1 - v2).sqrLength :=
      max_eq_right hdetnn
    have hsqrt : Real.sqrt (1 - ((r1 - r2).sqrLength - (r1.h + r2.h) ^ 2) /
        ((v1 - v2).dot (r1 - r2)) ^ 2 * (v1 - v2).sqrLength) =
        Real.sqrt (((v1 - v2).dot (r1 - r2)) ^ 2 -
          (v1 - v2).sqrLength * ((r1 - r2).sqrLength - (r1.h + r2.h) ^ 2)) /
          (-((v1 - v2).dot (r1 - r2))) := by
      rw [hdet, Real.sqrt_div hDnn, Real.sqrt_sq_eq_abs, abs_of_neg hconv]
    have hiff : (1 < 1 - ((r1 - r2).sqrLength - (r1.h + r2.h) ^ 2) /
        ((v1 - v2).dot (r1 - r2)) ^ 2 * (v1 - v2).sqrLength) ↔
        (r1 - r2).sqrLength < (r1.h + r2.h) ^ 2 := by
      rw [hdet, lt_div_iff hdvdr2, one_mul]
      constructor <;> intro hyp <;> nlinarith [hdv2]
    by_cases hover : (r1 - r2).sqrLength < (r1.h + r2.h) ^ 2
    · have h1lt := hiff.mpr hover
      have htc : -((v1 - v2).dot (r1 - r2)) / (v1 - v2).sqrLength *
          ((if 1 < 1 - ((r1 - r2).sqrLength - (r1.h + r2.h) ^ 2) /
              ((v1 - v2).dot (r1 - r2)) ^ 2 * (v1 - v2).sqrLength then
            1 + Real.sqrt (max 0 (1 - ((r1 - r2).sqrLength - (r1.h + r2.h) ^ 2) /
              ((v1 - v2).dot (r1 - r2)) ^ 2 * (v1 - v2).sqrLength))
          else
            1 - Real.sqrt (max 0 (1 - ((r1 - r2).sqrLength - (r1.h + r2.h) ^ 2) /
              ((v1 - v2).dot (r1 - r2)) ^ 2 * (v1 - v2).sqrLength)))) =
          tPlus r1 v1 r2 v2 := by
        rw [if_pos h1lt, hmax, hsqrt, htp]
        field_simp [hdvdr0]
        ring
      simp only [checkCollision]
      rw [if_neg (not_le.mpr hconv), if_pos hperp, htc, if_pos hover]
    · have h1lt : ¬(1 < 1 - ((r1 - r2).sqrLength - (r1.h + r2.h) ^ 2) /
          ((v1 - v2).dot (r1 - r2)) ^ 2 * (v1 - v2).sqrLength) := fun hyp =>
        hover (hiff.mp hyp)
      have htc : -((v1 - v2).dot (r1 - r2)) / (v1 - v2).sqrLength *
          ((if 1 < 1 - ((r1 - r2).sqrLength - (r1.h + r2.h) ^ 2) /
              ((v1 - v2).dot (r1 - r2)) ^ 2 * (v1 - v2).sqrLength then
            1 + Real.sqrt (max 0 (1 - ((r1 - r2).sqrLength - (r1.h + r2.h) ^ 2) /
              ((v1 - v2).dot (r1 - r2)) ^ 2 * (v1 - v2).sqrLength))
          else
            1 - Real.sqrt (max 0 (1 - ((r1 - r2).sqrLength - (r1.h + r2.h) ^ 2) /
              ((v1 - v2).dot (r1 - r2)) ^ 2 * (v1 - v2).sqrLength)))) =
          tMinus r1 v1 r2 v2 := by
        rw [if_neg h1lt, hmax, hsqrt, htm]
        field_simp [hdvdr0]
        ring
      simp only [checkCollision]
      rw [if_neg (not_le.mpr hconv), if_pos hperp, htc, if_neg hover]
  · rw [hbridge, htm]
    exact hquad.1
  · rw [hbridge, htp]
    exact hquad.2
  · intro s hs
    rw [htm]
    exact quadratic_smaller_root_le _ _ _ s hdv2 hDnn ((hbridge s).mp hs)
  · intro hno
    have hDle : ((v1 - v2).dot (r1 - r2)) ^ 2 -
        (v1 - v2).sqrLength * ((r1 - r2).sqrLength - (r1.h + r2.h) ^ 2) ≤
        ((v1 - v2).dot (r1 - r2)) ^ 2 := by
      nlinarith [hdv2.le]
    have hs1 : Real.sqrt (((v1 - v2).dot (r1 - r2)) ^ 2 -
        (v1 - v2).sqrLength * ((r1 - r2).sqrLength - (r1.h + r2.h) ^ 2)) ≤
        -((v1 - v2).dot (r1 - r2)) := by
      have := Real.sqrt_le_sqrt hDle
      rwa [Real.sqrt_sq_eq_abs, abs_of_neg hconv] at this
    rw [htm]
    apply div_nonneg ?_ hdv2.le
    linarith

/-- C5: the claim states that a contact time is returned only when the
SMALLER root of the contact equation lies in `[0, dt]` and that the
returned value is that smaller root.  For the already-overlapping
converging pair `r1 = (0,0,0), r2 = (1,0,0), h1 = h2 = 1,
v1 = (1,0,0), v2 = 0, dt = 10` the code returns `some 3`, yet `-1` and `3`
are the two roots: the smaller root is `-1`, which does not lie in
`[0, 10]`, so the claim would require `NOTHING`; moreover the returned
value `3` is not the smaller root. -/
theorem checkCollision_overlap_counterexample :
    checkCollision ⟨0, 0, 0, 1⟩ ⟨1, 0, 0, 0⟩ ⟨1, 0, 0, 1⟩ ⟨0, 0, 0, 0⟩ 10 = some 3 ∧
      contactRootP ⟨0, 0, 0, 1⟩ ⟨1, 0, 0, 0⟩ ⟨1, 0, 0, 1⟩ ⟨0, 0, 0, 0⟩ (-1) ∧
      contactRootP ⟨0, 0, 0, 1⟩ ⟨1, 0, 0, 0⟩ ⟨1, 0, 0, 1⟩ ⟨0, 0, 0, 0⟩ 3 ∧
      ((-1 : ℝ) < 3) ∧ ¬(0 ≤ (-1 : ℝ)) := by
  have h2 : Real.sqrt 4 = 2 := by
    rw [show (4 : ℝ) = 2 ^ 2 by norm_num, Real.sqrt_sq (by norm_num : (0 : ℝ) ≤ 2)]
  refine ⟨?_, ?_, ?_, by norm_num, by norm_num⟩
  · simp only [checkCollision]
    norm_num [Vec4.sub_def, Vec4.smul_def, Vec4.dot, Vec4.sqrLength, h2]
  · unfold contactRootP
    norm_num [Vec4.sub_def, Vec4.add_def, Vec4.smul_def, Vec4.dot, Vec4.sqrLength]
  · unfold contactRootP
    norm_num [Vec4.sub_def, Vec4.add_def, Vec4.smul_def, Vec4.dot, Vec4.sqrLength]

/-- Witness for the C5 amended theorem at a concrete non-overlapping
converging pair (`r1 = (0,0,0), r2 = (3,0,0), h1 = h2 = 1, v1 = (1,0,0),
v2 = 0`): the hypotheses are discharged numerically and the smaller root is
nonnegative. -/
theorem checkCollision_characterization_witness :
    0 ≤ tMinus ⟨0, 0, 0, 1⟩ ⟨1, 0, 0, 0⟩ ⟨3, 0, 0, 1⟩ ⟨0, 0, 0, 0⟩ :=
  (checkCollision_characterization ⟨0, 0, 0, 1⟩ ⟨1, 0, 0, 0⟩ ⟨3, 0, 0, 1⟩ ⟨0, 0, 0, 0⟩ 10
      (by norm_num [Vec4.sub_def, Vec4.dot])
      (by norm_num [Vec4.sub_def, Vec4.smul_def, Vec4.dot, Vec4.sqrLength])).2.2.2.2
    (by norm_num [Vec4.sub_def, Vec4.dot, Vec4.sqrLength])

theorem computeReducedMultipole2_eq (m : Multipole2) :
    computeReducedMultipole2 m = Multipole2.ofFun (fun i j =>
      m.value i j - 1 / 3 * m.contract * kdelta i j) := by
  unfold computeReducedMultipole2
  simp only [reducedFactor_two_zero, reducedFactor_two_one]
  unfold Multipole2.ofFun
  ext <;> (dsimp; ring)

theorem computeReducedMultipole3_eq (m : Multipole3) :
    computeReducedMultipole3 m = Multipole3.ofFun (fun i j k =>
      m.value i j k - 1 / 5 * permDeltaT1 m.contract i j k) := by
  unfold computeReducedMultipole3
  simp only [reducedFactor_three_zero, reducedFactor_three_one]
  unfold Multipole3.ofFun
  ext <;> (dsimp; ring)

theorem computeReducedMultipole4_eq (m : Multipole4) :
    computeReducedMultipole4 m = Multipole4.ofFun (fun i j k l =>
      m.value i j k l - 1 / 7 * permDeltaT2 m.contract i j k l +
        1 / 70 * m.contract.contract * delta4 i j k l) := by
  unfold computeReducedMultipole4
  simp only [reducedFactor_four_zero, reducedFactor_four_one, reducedFactor_four_two]
  unfold Multipole4.ofFun
  ext <;> (dsimp; ring)

/-! Small reduction lemmas (all `rfl`) used to evaluate symmetric component
access without unfolding the count-based dispatch inside large terms. -/

theorem fin3_eq_00 : ((0 : Fin 3) = 0) ↔ True := by decide

theorem fin3_eq_01 : ((0 : Fin 3) = 1) ↔ False := by decide

theorem fin3_eq_02 : ((0 : Fin 3) = 2) ↔ False := by decide

theorem fin3_eq_10 : ((1 : Fin 3) = 0) ↔ False := by decide

theorem fin3_eq_11 : ((1 : Fin 3) = 1) ↔ True := by decide

theorem fin3_eq_12 : ((1 : Fin 3) = 2) ↔ False := by decide

theorem fin3_eq_20 : ((2 : Fin 3) = 0) ↔ False := by decide

theorem fin3_eq_21 : ((2 : Fin 3) = 1) ↔ False := by decide

theorem fin3_eq_22 : ((2 : Fin 3) = 2) ↔ True := by decide

theorem value_m2_00 (m : Multipole2) : m.value 0 0 = m.c00 := rfl

theorem value_m2_01 (m : Multipole2) : m.value 0 1 = m.c01 := rfl

theorem value_m2_02 (m : Multipole2) : m.value 0 2 = m.c02 := rfl

theorem value_m2_10 (m : Multipole2) : m.value 1 0 = m.c01 := rfl

theorem value_m2_11 (m : Multipole2) : m.value 1 1 = m.c11 := rfl

theorem value_m2_12 (m : Multipole2) : m.value 1 2 = m.c12 := rfl

theorem value_m2_20 (m : Multipole2) : m.value 2 0 = m.c02 := rfl

theorem value_m2_21 (m : Multipole2) : m.value 2 1 = m.c12 := rfl

theorem value_m2_22 (m : Multipole2) : m.value 2 2 = m.c22 := rfl

theorem value_m3_000 (m : Multipole3) : m.value 0 0 0 = m.c000 := rfl

theorem value_m3_011 (m : Multipole3) : m.value 0 1 1 = m.c011 := rfl

theorem value_m3_022 (m : Multipole3) : m.value 0 2 2 = m.c022 := rfl

theorem value_m3_100 (m : Multipole3) : m.value 1 0 0 = m.c001 := rfl

theorem value_m3_111 (m : Multipole3) : m.value 1 1 1 = m.c111 := rfl

theorem value_m3_122 (m : Multipole3) : m.value 1 2 2 = m.c122 := rfl

theorem value_m3_200 (m : Multipole3) : m.value 2 0 0 = m.c002 := rfl

theorem value_m3_211 (m : Multipole3) : m.value 2 1 1 = m.c112 := rfl

theorem value_m3_222 (m : Multipole3) : m.value 2 2 2 = m.c222 := rfl

theorem value_m3_001 (m : Multipole3) : m.value 0 0 1 = m.c001 := rfl

theorem value_m3_002 (m : Multipole3) : m.value 0 0 2 = m.c002 := rfl

theorem value_m3_012 (m : Multipole3) : m.value 0 1 2 = m.c012 := rfl

theorem value_m3_112 (m : Multipole3) : m.value 1 1 2 = m.c112 := rfl

theorem value_m4_0000 (m : Multipole4) : m.value 0 0 0 0 = m.c0000 := rfl

theorem value_m4_0011 (m : Multipole4) : m.value 0 0 1 1 = m.c0011 := rfl

theorem value_m4_0022 (m : Multipole4) : m.value 0 0 2 2 = m.c0022 := rfl

theorem value_m4_0100 (m : Multipole4) : m.value 0 1 0 0 = m.c0001 := rfl

theorem value_m4_0111 (m : Multipole4) : m.value 0 1 1 1 = m.c0111 := rfl

theorem value_m4_0122 (m : Multipole4) : m.value 0 1 2 2 = m.c0122 := rfl

theorem value_m4_0200 (m : Multipole4) : m.value 0 2 0 0 = m.c0002 := rfl

theorem value_m4_0211 (m : Multipole4) : m.value 0 2 1 1 = m.c0112 := rfl

theorem value_m4_0222 (m : Multipole4) : m.value 0 2 2 2 = m.c0222 := rfl

theorem value_m4_1000 (m : Multipole4) : m.value 1 0 0 0 = m.c0001 := rfl

theorem value_m4_1011 (m : Multipole4) : m.value 1 0 1 1 = m.c0111 := rfl

theorem value_m4_1022 (m : Multipole4) : m.value 1 0 2 2 = m.c0122 := rfl

theorem value_m4_1100 (m : Multipole4) : m.value 1 1 0 0 = m.c0011 := rfl

theorem value_m4_1111 (m : Multipole4) : m.value 1 1 1 1 = m.c1111 := rfl

theorem value_m4_1122 (m : Multipole4) : m.value 1 1 2 2 = m.c1122 := rfl

theorem value_m4_1200 (m : Multipole4) : m.value 1 2 0 0 = m.c0012 := rfl

theorem value_m4_1211 (m : Multipole4) : m.value 1 2 1 1 = m.c1112 := rfl

theorem value_m4_1222 (m : Multipole4) : m.value 1 2 2 2 = m.c1222 := rfl

theorem value_m4_2000 (m : Multipole4) : m.value 2 0 0 0 = m.c0002 := rfl

theorem value_m4_2011 (m : Multipole4) : m.value 2 0 1 1 = m.c0112 := rfl

theorem value_m4_2022 (m : Multipole4) : m.value 2 0 2 2 = m.c0222 := rfl

theorem value_m4_2100 (m : Multipole4) : m.value 2 1 0 0 = m.c0012 := rfl

theorem value_m4_2111 (m : Multipole4) : m.value 2 1 1 1 = m.c1112 := rfl

theorem value_m4_2122 (m : Multipole4) : m.value 2 1 2 2 = m.c1222 := rfl

theorem value_m4_2200 (m : Multipole4) : m.value 2 2 0 0 = m.c0022 := rfl

theorem value_m4_2211 (m : Multipole4) : m.value 2 2 1 1 = m.c1122 := rfl

theorem value_m4_2222 (m : Multipole4) : m.value 2 2 2 2 = m.c2222 := rfl

theorem value_m4_0001 (m : Multipole4) : m.value 0 0 0 1 = m.c0001 := rfl

theorem value_m4_0002 (m : Multipole4) : m.value 0 0 0 2 = m.c0002 := rfl

theorem value_m4_0012 (m : Multipole4) : m.value 0 0 1 2 = m.c0012 := rfl

theorem value_m4_0112 (m : Multipole4) : m.value 0 1 1 2 = m.c0112 := rfl

theorem value_m4_1112 (m : Multipole4) : m.value 1 1 1 2 = m.c1112 := rfl

theorem trace3_slots13 (m : Multipole3) (i : Fin 3) :
    m.value 0 i 0 + m.value 1 i 1 + m.value 2 i 2 =
      m.value i 0 0 + m.value i 1 1 + m.value i 2 2 := by
  fin_cases i <;> rfl

theorem trace3_slots12 (m : Multipole3) (i : Fin 3) :
    m.value 0 0 i + m.value 1 1 i + m.value 2 2 i =
      m.value i 0 0 + m.value i 1 1 + m.value i 2 2 := by
  fin_cases i <;> rfl

theorem trace4_slots24 (m : Multipole4) (i j : Fin 3) :
    m.value i 0 j 0 + m.value i 1 j 1 + m.value i 2 j 2 =
      m.value i j 0 0 + m.value i j 1 1 + m.value i j 2 2 := by
  fin_cases i <;> fin_cases j <;> rfl

theorem trace4_slots23 (m : Multipole4) (i j : Fin 3) :
    m.value i 0 0 j + m.value i 1 1 j + m.value i 2 2 j =
      m.value i j 0 0 + m.value i j 1 1 + m.value i j 2 2 := by
  fin_cases i <;> fin_cases j <;> rfl

theorem trace4_slots14 (m : Multipole4) (i j : Fin 3) :
    m.value 0 i j 0 + m.value 1 i j 1 + m.value 2 i j 2 =
      m.value i j 0 0 + m.value i j 1 1 + m.value i j 2 2 := by
  fin_cases i <;> fin_cases j <;> rfl

theorem trace4_slots13 (m : Multipole4) (i j : Fin 3) :
    m.value 0 i 0 j + m.value 1 i 1 j + m.value 2 i 2 j =
      m.value i j 0 0 + m.value i j 1 1 + m.value i j 2 2 := by
  fin_cases i <;> fin_cases j <;> rfl

theorem trace4_slots12 (m : Multipole4) (i j : Fin 3) :
    m.value 0 0 i j + m.value 1 1 i j + m.value 2 2 i j =
      m.value i j 0 0 + m.value i j 1 1 + m.value i j 2 2 := by
  fin_cases i <;> fin_cases j <;> rfl


set_option maxHeartbeats 1000000 in
theorem reduced3_trace_components (m : Multipole3) :
    ((computeReducedMultipole3 m).value 0 0 0 + (computeReducedMultipole3 m).value 0 1 1 +
        (computeReducedMultipole3 m).value 0 2 2 = 0) ∧
      ((computeReducedMultipole3 m).value 1 0 0 + (computeReducedMultipole3 m).value 1 1 1 +
        (computeReducedMultipole3 m).value 1 2 2 = 0) ∧
      ((computeReducedMultipole3 m).value 2 0 0 + (computeReducedMultipole3 m).value 2 1 1 +
        (computeReducedMultipole3 m).value 2 2 2 = 0) := by
  rw [computeReducedMultipole3_eq]
  refine ⟨?_, ?_, ?_⟩ <;>
    (simp only [value_m3_000, value_m3_011, value_m3_022, value_m3_100, value_m3_111, value_m3_122, value_m3_200, value_m3_211, value_m3_222, value_m3_001, value_m3_002, value_m3_012, value_m3_112,
       Multipole3.ofFun, Multipole3.contract, Multipole1.value, permDeltaT1, kdelta,
       fin3_eq_00, fin3_eq_01, fin3_eq_02, fin3_eq_10, fin3_eq_11, fin3_eq_12, fin3_eq_20, fin3_eq_21, fin3_eq_22, ite_true, ite_false]
     ring)


set_option maxHeartbeats 1000000 in
theorem reduced4_trace_components (m : Multipole4) :
    ((computeReducedMultipole4 m).value 0 0 0 0 + (computeReducedMultipole4 m).value 0 0 1 1 +
        (computeReducedMultipole4 m).value 0 0 2 2 = 0) ∧
      ((computeReducedMultipole4 m).value 0 1 0 0 + (computeReducedMultipole4 m).value 0 1 1 1 +
        (computeReducedMultipole4 m).value 0 1 2 2 = 0) ∧
      ((computeReducedMultipole4 m).value 0 2 0 0 + (computeReducedMultipole4 m).value 0 2 1 1 +
        (computeReducedMultipole4 m).value 0 2 2 2 = 0) ∧
      ((computeReducedMultipole4 m).value 1 0 0 0 + (computeReducedMultipole4 m).value 1 0 1 1 +
        (computeReducedMultipole4 m).value 1 0 2 2 = 0) ∧
      ((computeReducedMultipole4 m).value 1 1 0 0 + (computeReducedMultipole4 m).value 1 1 1 1 +
        (computeReducedMultipole4 m).value 1 1 2 2 = 0) ∧
      ((computeReducedMultipole4 m).value 1 2 0 0 + (computeReducedMultipole4 m).value 1 2 1 1 +
        (computeReducedMultipole4 m).value 1 2 2 2 = 0) ∧
      ((computeReducedMultipole4 m).value 2 0 0 0 + (computeReducedMultipole4 m).value 2 0 1 1 +
        (computeReducedMultipole4 m).value 2 0 2 2 = 0) ∧
      ((computeReducedMultipole4 m).value 2 1 0 0 + (computeReducedMultipole4 m).value 2 1 1 1 +
        (computeReducedMultipole4 m).value 2 1 2 2 = 0) ∧
      ((computeReducedMultipole4 m).value 2 2 0 0 + (computeReducedMultipole4 m).value 2 2 1 1 +
        (computeReducedMultipole4 m).value 2 2 2 2 = 0) := by
  rw [computeReducedMultipole4_eq]
  refine ⟨?_, ?_, ?_, ?_, ?_, ?_, ?_, ?_, ?_⟩ <;>
    (simp only [value_m4_0000, value_m4_0011, value_m4_0022, value_m4_0100, value_m4_0111, value_m4_0122, value_m4_0200, value_m4_0211, value_m4_0222, value_m4_1000, value_m4_1011, value_m4_1022, value_m4_1100, value_m4_1111, value_m4_1122, value_m4_1200, value_m4_1211, value_m4_1222, value_m4_2000, value_m4_2011, value_m4_2022, value_m4_2100, value_m4_2111, value_m4_2122, value_m4_2200, value_m4_2211, value_m4_2222, value_m4_0001, value_m4_0002, value_m4_0012, value_m4_0112, value_m4_1112, value_m2_00, value_m2_01, value_m2_02, value_m2_10, value_m2_11, value_m2_12, value_m2_20, value_m2_21, value_m2_22,
       Multipole4.ofFun, Multipole2.ofFun, permDeltaT2, delta4, kdelta,
       Multipole4.contract, Multipole2.contract,
       fin3_eq_00, fin3_eq_01, fin3_eq_02, fin3_eq_10, fin3_eq_11, fin3_eq_12, fin3_eq_20, fin3_eq_21, fin3_eq_22, ite_true, ite_false]
     ring)


/-- C6: for every order N in {1,2,3,4} and every (not necessarily traceless)
Cartesian multipole, the reduced multipole built with the `reducedFactor`
coefficients of the source has zero trace: every contraction of two index
slots vanishes exactly (hence in particular up to 1e-12).  For order 1 no
contraction exists and the reduction is the identity
(`reducedFactor<1,0> = 1`). -/
theorem computeReducedMultipole_traceless :
    (∀ m : Multipole1, computeReducedMultipole1 m = m) ∧
      (∀ m : Multipole2, (computeReducedMultipole2 m).contract = 0) ∧
      (∀ (m : Multipole3) (i : Fin 3),
        ((computeReducedMultipole3 m).value i 0 0 + (computeReducedMultipole3 m).value i 1 1 +
            (computeReducedMultipole3 m).value i 2 2 = 0) ∧
          ((computeReducedMultipole3 m).value 0 i 0 + (computeReducedMultipole3 m).value 1 i 1 +
            (computeReducedMultipole3 m).value 2 i 2 = 0) ∧
          ((computeReducedMultipole3 m).value 0 0 i + (computeReducedMultipole3 m).value 1 1 i +
            (computeReducedMultipole3 m).value 2 2 i = 0)) ∧
      (∀ (m : Multipole4) (i j : Fin 3),
        ((computeReducedMultipole4 m).value i j 0 0 + (computeReducedMultipole4 m).value i j 1 1 +
            (computeReducedMultipole4 m).value i j 2 2 = 0) ∧
          ((computeReducedMultipole4 m).value i 0 j 0 + (computeReducedMultipole4 m).value i 1 j 1 +
            (computeReducedMultipole4 m).value i 2 j 2 = 0) ∧
          ((computeReducedMultipole4 m).value i 0 0 j + (computeReducedMultipole4 m).value i 1 1 j +
            (computeReducedMultipole4 m).value i 2 2 j = 0) ∧
          ((computeReducedMultipole4 m).value 0 i j 0 + (computeReducedMultipole4 m).value 1 i j 1 +
            (computeReducedMultipole4 m).value 2 i j 2 = 0) ∧
          ((computeReducedMultipole4 m).value 0 i 0 j + (computeReducedMultipole4 m).value 1 i 1 j +
            (computeReducedMultipole4 m).value 2 i 2 j = 0) ∧
          ((computeReducedMultipole4 m).value 0 0 i j + (computeReducedMultipole4 m).value 1 1 i j +
            (computeReducedMultipole4 m).value 2 2 i j = 0)) := by
  refine ⟨?_, ?_, ?_, ?_⟩
  · intro m
    ext <;> simp [computeReducedMultipole1, reducedFactor_one_zero]
  · intro m
    simp [computeReducedMultipole2, Multipole2.ofFun, Multipole2.contract, Multipole2.value,
      kdelta, reducedFactor_two_zero, reducedFactor_two_one]
    ring
  · intro m i
    obtain ⟨h0, h1, h2⟩ := reduced3_trace_components m
    refine ⟨?_, ?_, ?_⟩
    · fin_cases i
      exacts [h0, h1, h2]
    · rw [trace3_slots13]
      fin_cases i
      exacts [h0, h1, h2]
    · rw [trace3_slots12]
      fin_cases i
      exacts [h0, h1, h2]
  · intro m i j
    obtain ⟨h00, h01, h02, h10, h11, h12, h20, h21, h22⟩ := reduced4_trace_components m
    refine ⟨?_, ?_, ?_, ?_, ?_, ?_⟩
    · fin_cases i <;> fin_cases j
      exacts [h00, h01, h02, h10, h11, h12, h20, h21, h22]
    · rw [trace4_slots24]
      fin_cases i <;> fin_cases j
      exacts [h00, h01, h02, h10, h11, h12, h20, h21, h22]
    · rw [trace4_slots23]
      fin_cases i <;> fin_cases j
      exacts [h00, h01, h02, h10, h11, h12, h20, h21, h22]
    · rw [trace4_slots14]
      fin_cases i <;> fin_cases j
      exacts [h00, h01, h02, h10, h11, h12, h20, h21, h22]
    · rw [trace4_slots13]
      fin_cases i <;> fin_cases j
      exacts [h00, h01, h02, h10, h11, h12, h20, h21, h22]
    · rw [trace4_slots12]
      fin_cases i <;> fin_cases j
      exacts [h00, h01, h02, h10, h11, h12, h20, h21, h22]

theorem Multipole1.add_components (a b : Multipole1) :
    a + b = ⟨a.m0 + b.m0, a.m1 + b.m1, a.m2 + b.m2⟩ := rfl

theorem outer2_neg (d : Multipole1) : outer2 d.neg = outer2 d := by
  unfold outer2 Multipole2.ofFun Multipole1.neg Multipole1.value
  ext <;> (dsimp; ring)

/-- C7: the claim states that shifting any traceless multipole (orders up
to 4) by `d` and back by `−d` with `parallelAxisTheorem` is the identity to
within 1e-12.  At order 2, with zero quadrupole, unit monopole `Q = 1` and
`d = (1,0,0)`, the round trip returns `2·q̃(d⊗d)` whose xx component is 4/3,
far above the tolerance. -/
theorem parallelAxisTheorem_roundtrip_counterexample :
    (parallelAxisTheorem2
        (parallelAxisTheorem2 ⟨0, 0, 0, 0, 0, 0⟩ 1 ⟨1, 0, 0⟩) 1
        (Multipole1.neg ⟨1, 0, 0⟩)).c00 = 4 / 3 ∧
      (⟨0, 0, 0, 0, 0, 0⟩ : Multipole2).c00 = 0 ∧
      ¬(|(4 : ℝ) / 3 - 0| ≤ 1 / 10 ^ 12) := by
  refine ⟨?_, rfl, ?_⟩
  swap
  · rw [sub_zero, abs_of_pos (by norm_num : (0 : ℝ) < 4 / 3)]
    norm_num
  rw [show parallelAxisTheorem2
        (parallelAxisTheorem2 ⟨0, 0, 0, 0, 0, 0⟩ 1 ⟨1, 0, 0⟩) 1
        (Multipole1.neg ⟨1, 0, 0⟩) =
      parallelAxisTheorem2
        (parallelAxisTheorem2 ⟨0, 0, 0, 0, 0, 0⟩ 1 ⟨1, 0, 0⟩) 1
        ((⟨1, 0, 0⟩ : Multipole1).neg) from rfl]
  unfold parallelAxisTheorem2
  rw [outer2_neg, computeReducedMultipole2_eq]
  norm_num [Multipole2.ofFun, value_m2_00, outer2, Multipole2.contract, Multipole1.value,
    kdelta, Multipole2.value]

/-- C7 (amended): the round trip `shift by d, then by −d` of
`parallelAxisTheorem` is the exact identity at order 1, but at order 2 it
returns `Qij + 2·Q·q̃(d⊗d)` — the shift formula assumes the moments are
taken about the centre of mass (vanishing dipole), which no longer holds
after the first shift, so the round trip is the identity only when
`Q·q̃(d⊗d) = 0` (e.g. `d = 0` or zero total mass), and the claimed identity
fails in general for orders ≥ 2. -/
theorem parallelAxisTheorem_roundtrip (q1 : Multipole1) (qij : Multipole2) (q : ℝ)
    (d : Multipole1) :
    parallelAxisTheorem1 (parallelAxisTheorem1 q1 q d) q d.neg = q1 ∧
      parallelAxisTheorem2 (parallelAxisTheorem2 qij q d) q d.neg =
        Multipole2.ofFun (fun i j =>
          qij.value i j + 2 * q * (computeReducedMultipole2 (outer2 d)).value i j) := by
  constructor
  · unfold parallelAxisTheorem1 Multipole1.neg
    ext <;> (dsimp; ring)
  · unfold parallelAxisTheorem2
    rw [outer2_neg]
    ext <;>
      (simp only [Multipole2.ofFun, value_m2_00, value_m2_01, value_m2_02, value_m2_10,
        value_m2_11, value_m2_12, value_m2_20, value_m2_21, value_m2_22]
       ring)

/-- C1: the claim states that `evaluateGravity` supports every maxOrder in
{MONOPOLE, QUADRUPOLE, OCTUPOLE, HEXADECAPOLE} and in particular that the
hexadecapole evaluation does not abort.  In the source the switch has no
HEXADECAPOLE case, so that order falls into the `default: NOT_IMPLEMENTED`
branch (an abort), modelled as `none`: at any concrete input the
hexadecapole evaluation produces no acceleration. -/
theorem evaluateGravity_hexadecapole_counterexample :
    evaluateGravity ⟨1, 0, 0, 0⟩
        ⟨1, ⟨0, 0, 0⟩, ⟨0, 0, 0, 0, 0, 0⟩, ⟨0, 0, 0, 0, 0, 0, 0, 0, 0, 0⟩,
          ⟨0, 0, 0, 0, 0, 0, 0, 0, 0, 0, 0, 0, 0, 0, 0⟩⟩
        MultipoleOrder.HEXADECAPOLE = none := rfl

/-- C1 (amended): for maxOrder in {MONOPOLE, QUADRUPOLE, OCTUPOLE},
`evaluateGravity` returns the sum of the multipole acceleration
contributions of the stored orders up to maxOrder (orders {0}, {0,2} and
{0,2,3} respectively — the dipole vanishes about the centre of mass and is
never evaluated), each contribution evaluated at `−dr` with the Green
gammas of `dr`; for HEXADECAPOLE the evaluation is not implemented and
aborts (`none`) instead of returning the order ≤ 4 sum. -/
theorem evaluateGravity_characterization (dr : Vec4 ℝ) (ms : MultipoleExpansion) :
    evaluateGravity dr ms MultipoleOrder.MONOPOLE =
        some (sumM1 ((gravityOrders MultipoleOrder.MONOPOLE).map
          (multipoleContribution ms (greenGamma dr) (-dr)))) ∧
      evaluateGravity dr ms MultipoleOrder.QUADRUPOLE =
        some (sumM1 ((gravityOrders MultipoleOrder.QUADRUPOLE).map
          (multipoleContribution ms (greenGamma dr) (-dr)))) ∧
      evaluateGravity dr ms MultipoleOrder.OCTUPOLE =
        some (sumM1 ((gravityOrders MultipoleOrder.OCTUPOLE).map
          (multipoleContribution ms (greenGamma dr) (-dr)))) ∧
      evaluateGravity dr ms MultipoleOrder.HEXADECAPOLE = none := by
  refine ⟨?_, ?_, ?_, rfl⟩ <;>
    (simp only [evaluateGravity, gravityOrders, multipoleContribution, sumM1, List.map,
      List.foldr]
     congr 1
     ext <;>
       (simp only [Multipole1.add_components]
        ring))

end OpenSPH
